import Mathlib

/-!
Formal model of `CanduRefuelingSimulator.py`, a CANDU on-power refuelling
simulator.  Python floats are modelled as exact rationals (`ℚ`); the only
float operations the simulator performs are additions, divisions and order
comparisons, which the rationals model exactly.  Python `int` parameters that
can be negative are modelled as `Int`.  `np.mean` of an empty list yields
`NaN` in the source; `NaN` is modelled as `none` in an `Option ℚ` result.
-/

namespace Candu

/-- `FuelBundle`: a single fuel bundle tracking its burnup (MWd/kgU).
`FuelBundle.__init__` sets `burnup = 0.0`. -/
structure FuelBundle where
  burnup : ℚ
deriving DecidableEq

/-- `FuelBundle()`: fresh bundle with burnup `0.0`. -/
def FuelBundle.init : FuelBundle := ⟨0⟩

/-- `FuelChannel`: one CANDU fuel channel holding a single `FuelBundle`. -/
structure FuelChannel where
  bundle : FuelBundle
deriving DecidableEq

/-- `FuelChannel()`: fresh channel holding `FuelBundle()`. -/
def FuelChannel.init : FuelChannel := ⟨FuelBundle.init⟩

/-- `FuelChannel.burn`: `self.bundle.burnup += rate`. -/
def FuelChannel.burn (ch : FuelChannel) (rate : ℚ) : FuelChannel :=
  ⟨⟨ch.bundle.burnup + rate⟩⟩

/-- `FuelChannel.refuel`: captures the held bundle's burnup, installs a fresh
`FuelBundle()`, and returns the discharged burnup (here paired with the
post-state of the channel). -/
def FuelChannel.refuel (ch : FuelChannel) : ℚ × FuelChannel :=
  (ch.bundle.burnup, ⟨FuelBundle.init⟩)

/-- `Core`: the reactor core as an ordered collection of `FuelChannel`s. -/
structure Core where
  channels : List FuelChannel
deriving DecidableEq

/-- `Core.__init__`: `[FuelChannel() for _ in range(num_channels)]`.
Python's `range(n)` is empty for `n ≤ 0`, hence `Int.toNat`. -/
def Core.init (num_channels : Int) : Core :=
  ⟨List.replicate num_channels.toNat FuelChannel.init⟩

/-- `Core.burn_all`: burn every channel by the given rate. -/
def Core.burn_all (c : Core) (rate : ℚ) : Core :=
  ⟨c.channels.map (fun ch => ch.burn rate)⟩

/-- `float(np.mean(xs))`: the arithmetic mean.  For an empty list `np.mean`
emits a runtime warning and returns `NaN` (it does not raise); `NaN` is
modelled as `none`. -/
def npMean (xs : List ℚ) : Option ℚ :=
  if xs.isEmpty then none else some (xs.sum / xs.length)

/-- `Core.average_burnup`: mean burnup across all channels. -/
def Core.average_burnup (c : Core) : Option ℚ :=
  npMean (c.channels.map (fun ch => ch.bundle.burnup))

/-- `FuellingMachine`: on-power fuelling machine bookkeeping.  The Python
counter is a non-negative `int` starting at `0` and only incremented, so it
is modelled as `ℕ`. -/
structure FuellingMachine where
  total_refuel_count : ℕ
  discharged_burnups : List ℚ
deriving DecidableEq

/-- `FuellingMachine.__init__`: zero count, empty discharge log. -/
def FuellingMachine.init : FuellingMachine := ⟨0, []⟩

/-- The order realised by `indexed.sort(key=lambda x: x[1].bundle.burnup,
reverse=True)` on the `enumerate`d channel list: Python's sort is stable, so
the result is ordered by burnup descending with ties in ascending original
index (indices in `enumerate` output are distinct, so this order determines
the sorted list uniquely). -/
def keyLE (p q : ℕ × FuelChannel) : Prop :=
  q.2.bundle.burnup < p.2.bundle.burnup ∨
    (p.2.bundle.burnup = q.2.bundle.burnup ∧ p.1 ≤ q.1)

instance : DecidableRel keyLE := fun p q => by
  unfold keyLE
  exact inferInstance

instance : IsTotal (ℕ × FuelChannel) keyLE := by
  constructor
  intro p q
  rcases lt_trichotomy p.2.bundle.burnup q.2.bundle.burnup with h | h | h
  · exact Or.inr (Or.inl h)
  · rcases Nat.le_total p.1 q.1 with hi | hi
    · exact Or.inl (Or.inr ⟨h, hi⟩)
    · exact Or.inr (Or.inr ⟨h.symm, hi⟩)
  · exact Or.inl (Or.inl h)

instance : IsTrans (ℕ × FuelChannel) keyLE := by
  constructor
  rintro p q s (h₁ | ⟨e₁, i₁⟩) (h₂ | ⟨e₂, i₂⟩)
  · exact Or.inl (h₂.trans h₁)
  · exact Or.inl (e₂ ▸ h₁)
  · exact Or.inl (e₁ ▸ h₂)
  · exact Or.inr ⟨e₁.trans e₂, i₁.trans i₂⟩

instance : IsAntisymm (ℕ × FuelChannel) keyLE := by
  constructor
  rintro ⟨i, ⟨⟨b⟩⟩⟩ ⟨j, ⟨⟨c⟩⟩⟩ (h₁ | ⟨e₁, i₁⟩) (h₂ | ⟨e₂, i₂⟩)
  · exact absurd h₁ (not_lt_of_lt h₂)
  · exact absurd h₁ (e₂ ▸ lt_irrefl _)
  · exact absurd h₂ (e₁ ▸ lt_irrefl _)
  · simp only [Prod.mk.injEq, FuelChannel.mk.injEq, FuelBundle.mk.injEq]
    exact ⟨Nat.le_antisymm i₁ i₂, e₁⟩

/-- Python list slicing `l[:k]` for an arbitrary `int` bound `k`:
a non-negative bound takes the first `k` elements (saturating at the length),
a negative bound drops the last `|k|` elements. -/
def pySliceTo {α : Type} (l : List α) (k : Int) : List α :=
  if 0 ≤ k then l.take k.toNat else l.take (l.length - (-k).toNat)

/-- The local `sorted` list of `refuel_core`: `enumerate` the channels and
stable-sort by burnup descending (`list.sort(key=..., reverse=True)`). -/
def sortedIndexed (cs : List FuelChannel) : List (ℕ × FuelChannel) :=
  List.insertionSort keyLE cs.enum

/-- The local `indexed[:bundles_per_step]` slice of `refuel_core`: the
selected index/channel pairs. -/
def selectedChannels (cs : List FuelChannel) (bundles_per_step : Int) :
    List (ℕ × FuelChannel) :=
  pySliceTo (sortedIndexed cs) bundles_per_step

/-- `FuellingMachine.refuel_core`: pair each channel with its index
(`enumerate`), stable-sort by burnup descending, and refuel the first
`bundles_per_step` entries of the sorted list.  The Python loop mutates the
shared channel objects, appends each discharged burnup, and bumps the counter
once per discharge; here the loop's effect is split per field: the counter
grows by the number of selected entries, the log is extended by their burnup
values in selection order, and each selected channel slot is overwritten with
a fresh channel. -/
def FuellingMachine.refuel_core (fm : FuellingMachine) (core : Core)
    (bundles_per_step : Int) : FuellingMachine × Core :=
  let selected := selectedChannels core.channels bundles_per_step
  let fm' : FuellingMachine :=
    ⟨fm.total_refuel_count + selected.length,
     fm.discharged_burnups ++ selected.map (fun p => p.2.bundle.burnup)⟩
  let channels' :=
    selected.foldl (fun chs p => chs.set p.1 FuelChannel.init) core.channels
  (fm', ⟨channels'⟩)

/-- `CANDUSimulator`: orchestrates burnup and refuelling, recording the
average-burnup series and the cumulative refuel-count series. -/
structure CANDUSimulator where
  core : Core
  fm : FuellingMachine
  burn_rate : ℚ
  bundles_per_step : Int
  total_steps : Int
  avg_burnup : List (Option ℚ)
  refuel_events : List ℕ
deriving DecidableEq

/-- `CANDUSimulator.__init__`: stores the configuration unchanged, builds the
core and the fuelling machine, and starts with empty series. -/
def CANDUSimulator.init (num_channels : Int) (burn_rate : ℚ)
    (bundles_per_step : Int) (total_steps : Int) : CANDUSimulator :=
  ⟨Core.init num_channels, FuellingMachine.init, burn_rate, bundles_per_step,
   total_steps, [], []⟩

/-- One iteration of the `run` loop body: burn all bundles, refuel the
highest-burnup bundles, then record the average burnup and the cumulative
refuel count. -/
def CANDUSimulator.step (s : CANDUSimulator) : CANDUSimulator :=
  let core1 := s.core.burn_all s.burn_rate
  let r := s.fm.refuel_core core1 s.bundles_per_step
  ⟨r.2, r.1, s.burn_rate, s.bundles_per_step, s.total_steps,
   s.avg_burnup ++ [r.2.average_burnup],
   s.refuel_events ++ [r.1.total_refuel_count]⟩

/-- `CANDUSimulator.run`: `for step in range(1, total_steps + 1)` executes the
loop body `max(total_steps, 0)` times. -/
def CANDUSimulator.run (s : CANDUSimulator) : CANDUSimulator :=
  CANDUSimulator.step^[s.total_steps.toNat] s

/-- The descending order on rationals, used by the spec-side sort. -/
def descLE (a b : ℚ) : Prop := b ≤ a

instance : DecidableRel descLE := fun a b => by
  unfold descLE
  exact inferInstance

instance : IsTotal ℚ descLE := ⟨fun a b => le_total b a⟩

instance : IsTrans ℚ descLE := ⟨fun _ _ _ h₁ h₂ => le_trans h₂ h₁⟩

instance : IsAntisymm ℚ descLE := ⟨fun _ _ h₁ h₂ => le_antisymm h₂ h₁⟩

/-- Spec-side definition (for the selection-refinement claim): the burnup
values sorted in descending order. -/
def specSortedDesc (vals : List ℚ) : List ℚ :=
  List.insertionSort descLE vals

/-- Spec-side definition: the top `m` burnup values among the channels, i.e.
the first `m` entries of the descending sort of all burnup values. -/
def specTopBurnups (cs : List FuelChannel) (m : ℕ) : List ℚ :=
  (specSortedDesc (cs.map (fun ch => ch.bundle.burnup))).take m

/-- Spec-side strict ranking: `q` is ranked strictly before `p` when `q`'s
burnup is higher, or equal with a smaller original channel index. -/
def rankedBefore (q p : ℕ × FuelChannel) : Prop :=
  p.2.bundle.burnup < q.2.bundle.burnup ∨
    (q.2.bundle.burnup = p.2.bundle.burnup ∧ q.1 < p.1)

instance : DecidableRel rankedBefore := fun q p => by
  unfold rankedBefore
  exact inferInstance

/-- The number of channels ranked strictly before `p` among the indexed
channel list `l`. -/
def rankIn (l : List (ℕ × FuelChannel)) (p : ℕ × FuelChannel) : ℕ :=
  (l.filter (fun q => decide (rankedBefore q p))).length

/-- The invariant maintained by each simulation step on a core of `n`
channels: fixed channel count, non-negative burnups, a discharge log as long
as the refuel counter, non-negative recorded averages, and a non-decreasing
refuel-count series bounded by the current counter. -/
def RunInv (n : ℕ) (s : CANDUSimulator) : Prop :=
  s.core.channels.length = n ∧
  (∀ ch ∈ s.core.channels, 0 ≤ ch.bundle.burnup) ∧
  s.fm.discharged_burnups.length = s.fm.total_refuel_count ∧
  (∀ x ∈ s.avg_burnup, ∃ q, x = some q ∧ 0 ≤ q) ∧
  List.Chain' (fun a b => a ≤ b) s.refuel_events ∧
  (∀ c ∈ s.refuel_events.getLast?, c ≤ s.fm.total_refuel_count)

end Candu

namespace Candu

/-! ### Helper lemmas: the stable selection sort -/

theorem sortedIndexed_perm (cs : List FuelChannel) :
    (sortedIndexed cs).Perm cs.enum :=
  List.perm_insertionSort keyLE cs.enum

theorem sortedIndexed_length (cs : List FuelChannel) :
    (sortedIndexed cs).length = cs.length := by
  rw [(sortedIndexed_perm cs).length_eq, List.enum_length]

theorem sortedIndexed_sorted (cs : List FuelChannel) :
    List.Sorted keyLE (sortedIndexed cs) :=
  List.sorted_insertionSort keyLE cs.enum

theorem enum_nodup (cs : List FuelChannel) : cs.enum.Nodup :=
  (List.nodup_enum_map_fst cs).of_map

theorem sortedIndexed_nodup (cs : List FuelChannel) :
    (sortedIndexed cs).Nodup :=
  ((sortedIndexed_perm cs).nodup_iff).mpr (enum_nodup cs)

theorem sortedIndexed_map_val (cs : List FuelChannel) :
    (sortedIndexed cs).map (fun p => p.2.bundle.burnup)
      = specSortedDesc (cs.map (fun ch => ch.bundle.burnup)) := by
  apply List.eq_of_perm_of_sorted (r := descLE)
  · have h₁ : ((sortedIndexed cs).map (fun p => p.2.bundle.burnup)).Perm
        (cs.enum.map (fun p => p.2.bundle.burnup)) :=
      (sortedIndexed_perm cs).map _
    have h₂ : cs.enum.map (fun p : ℕ × FuelChannel => p.2.bundle.burnup)
        = cs.map (fun ch => ch.bundle.burnup) := by
      conv_rhs => rw [← List.enum_map_snd cs]
      rw [List.map_map]
      rfl
    rw [h₂] at h₁
    exact h₁.trans (List.perm_insertionSort descLE _).symm
  · refine List.Pairwise.map _ ?_ (sortedIndexed_sorted cs)
    rintro p q (h | ⟨e, _⟩)
    · exact le_of_lt h
    · exact le_of_eq e.symm
  · exact List.sorted_insertionSort descLE _

theorem specSortedDesc_length (vals : List ℚ) :
    (specSortedDesc vals).length = vals.length :=
  (List.perm_insertionSort descLE vals).length_eq

theorem selectedChannels_natCast (cs : List FuelChannel) (k : ℕ) :
    selectedChannels cs (k : Int) = (sortedIndexed cs).take k := by
  simp [selectedChannels, pySliceTo, Int.natCast_nonneg]

theorem selectedChannels_length (cs : List FuelChannel) (k : ℕ) :
    (selectedChannels cs (k : Int)).length = min k cs.length := by
  rw [selectedChannels_natCast, List.length_take, sortedIndexed_length]

theorem take_min_length {α : Type} (l : List α) (k : ℕ) :
    l.take k = l.take (min k l.length) := by
  rcases le_or_lt k l.length with h | h
  · rw [Nat.min_eq_left h]
  · rw [Nat.min_eq_right (le_of_lt h), List.take_of_length_le (le_of_lt h),
      List.take_length]

theorem selectedChannels_map_val (cs : List FuelChannel) (k : ℕ) :
    (selectedChannels cs (k : Int)).map (fun p => p.2.bundle.burnup)
      = specTopBurnups cs (min k cs.length) := by
  rw [selectedChannels_natCast, List.map_take, sortedIndexed_map_val,
    specTopBurnups]
  rw [take_min_length (specSortedDesc _) k, specSortedDesc_length,
    List.length_map]

end Candu

namespace Candu

/-! ### Helper lemmas: the refuelling fold -/

theorem foldl_set_length (l : List (ℕ × FuelChannel)) (chs : List FuelChannel) :
    (l.foldl (fun c p => c.set p.1 FuelChannel.init) chs).length
      = chs.length := by
  induction l generalizing chs with
  | nil => rfl
  | cons p l ih => rw [List.foldl_cons, ih, List.length_set]

theorem foldl_set_getElem?_not_mem (l : List (ℕ × FuelChannel))
    (chs : List FuelChannel) (j : ℕ) (h : ∀ p ∈ l, p.1 ≠ j) :
    (l.foldl (fun c p => c.set p.1 FuelChannel.init) chs)[j]? = chs[j]? := by
  induction l generalizing chs with
  | nil => rfl
  | cons p l ih =>
    rw [List.foldl_cons, ih _ (fun q hq => h q (List.mem_cons_of_mem p hq)),
      List.getElem?_set_ne (h p (List.mem_cons_self p l))]

theorem foldl_set_getElem?_mem (l : List (ℕ × FuelChannel))
    (chs : List FuelChannel) (j : ℕ) (hj : j < chs.length)
    (h : ∃ p ∈ l, p.1 = j) :
    (l.foldl (fun c p => c.set p.1 FuelChannel.init) chs)[j]?
      = some FuelChannel.init := by
  induction l generalizing chs with
  | nil =>
    obtain ⟨p, hp, _⟩ := h
    exact absurd hp (List.not_mem_nil p)
  | cons p l ih =>
    rw [List.foldl_cons]
    by_cases hmem : ∃ q ∈ l, q.1 = j
    · exact ih _ (by rw [List.length_set]; exact hj) hmem
    · have hp : p.1 = j := by
        obtain ⟨q, hq, e⟩ := h
        rcases List.mem_cons.mp hq with rfl | hq'
        · exact e
        · exact absurd ⟨q, hq', e⟩ hmem
      rw [foldl_set_getElem?_not_mem _ _ j
        (fun q hq e => hmem ⟨q, hq, e⟩), hp, List.getElem?_set_self hj]

theorem foldl_set_mem (l : List (ℕ × FuelChannel)) (chs : List FuelChannel)
    (x : FuelChannel)
    (h : x ∈ l.foldl (fun c p => c.set p.1 FuelChannel.init) chs) :
    x ∈ chs ∨ x = FuelChannel.init := by
  induction l generalizing chs with
  | nil => exact Or.inl h
  | cons p l ih =>
    rw [List.foldl_cons] at h
    rcases ih _ h with h' | h'
    · exact List.mem_or_eq_of_mem_set h'
    · exact Or.inr h'

/-! ### Helper lemmas: components of `refuel_core` -/

theorem refuel_core_fst_count (fm : FuellingMachine) (core : Core)
    (k : Int) :
    (fm.refuel_core core k).1.total_refuel_count
      = fm.total_refuel_count + (selectedChannels core.channels k).length :=
  rfl

theorem refuel_core_fst_discharged (fm : FuellingMachine) (core : Core)
    (k : Int) :
    (fm.refuel_core core k).1.discharged_burnups
      = fm.discharged_burnups
        ++ (selectedChannels core.channels k).map
            (fun p => p.2.bundle.burnup) :=
  rfl

theorem refuel_core_snd_channels (fm : FuellingMachine) (core : Core)
    (k : Int) :
    (fm.refuel_core core k).2.channels
      = (selectedChannels core.channels k).foldl
          (fun chs p => chs.set p.1 FuelChannel.init) core.channels :=
  rfl

theorem refuel_core_snd_length (fm : FuellingMachine) (core : Core)
    (k : Int) :
    (fm.refuel_core core k).2.channels.length = core.channels.length := by
  rw [refuel_core_snd_channels, foldl_set_length]

end Candu

namespace Candu

/-- Claim C7: `refuel()` succeeds on every channel state (including burnup
exactly `0`), returns the burnup the bundle held immediately before the call,
and leaves the channel holding a fresh bundle with burnup exactly `0`. -/
theorem refuel_discharges_and_resets (ch : FuelChannel) :
    (ch.refuel).1 = ch.bundle.burnup ∧
    (ch.refuel).2 = FuelChannel.init ∧
    (ch.refuel).2.bundle.burnup = 0 :=
  ⟨rfl, rfl, rfl⟩

/-- Claim C3, counterexample: constructing the simulator with the invalid
configuration `num_channels = 0`, `burn_rate = -1`, `bundles_per_step = -2`,
`total_steps = -3` does not fail: neither `Core.__init__` nor
`CANDUSimulator.__init__` contains any validation or error path, so the
constructor returns a simulator, storing the invalid values unchanged and
building an empty channel list. -/
theorem invalid_construction_succeeds :
    (CANDUSimulator.init 0 (-1) (-2) (-3)).core.channels = [] ∧
    (CANDUSimulator.init 0 (-1) (-2) (-3)).burn_rate = -1 ∧
    (CANDUSimulator.init 0 (-1) (-2) (-3)).bundles_per_step = -2 ∧
    (CANDUSimulator.init 0 (-1) (-2) (-3)).total_steps = -3 :=
  ⟨rfl, rfl, rfl, rfl⟩

/-- Claim C3, amended: construction never signals a domain-validation error;
for every configuration, valid or not, it succeeds, stores `burn_rate`,
`bundles_per_step` and `total_steps` exactly as given (no clamping or
defaulting of the stored configuration), and builds a core with
`max(num_channels, 0)` channels (empty for `num_channels ≤ 0`, since Python's
`range` is empty there). -/
theorem construction_accepts_any_configuration (n : Int) (r : ℚ)
    (b t : Int) :
    (CANDUSimulator.init n r b t).burn_rate = r ∧
    (CANDUSimulator.init n r b t).bundles_per_step = b ∧
    (CANDUSimulator.init n r b t).total_steps = t ∧
    (CANDUSimulator.init n r b t).core.channels.length = n.toNat ∧
    (CANDUSimulator.init n r b t).fm = FuellingMachine.init :=
  ⟨rfl, rfl, rfl, List.length_replicate n.toNat FuelChannel.init, rfl⟩

/-- Claim C6, counterexample: `average_burnup()` on a core with zero channels
does not signal a domain error — `np.mean([])` returns `NaN` (modelled as
`none`) with only a runtime warning, and the function silently returns it. -/
theorem average_burnup_empty_core_returns_nan :
    Core.average_burnup ⟨[]⟩ = none :=
  rfl

/-- Claim C6, amended: on a core with zero channels `average_burnup()`
silently returns the `NaN` sentinel produced by `np.mean` of an empty list
(modelled as `none`); it does not signal a domain error. -/
theorem average_burnup_empty_core_is_nan (c : Core)
    (h : c.channels = []) : c.average_burnup = none := by
  rw [Core.average_burnup, h]
  rfl

/-- Witness for `average_burnup_empty_core_is_nan` at the concrete empty
core. -/
theorem average_burnup_empty_core_is_nan_witness :
    Core.average_burnup ⟨[]⟩ = none :=
  average_burnup_empty_core_is_nan ⟨[]⟩ rfl

end Candu

namespace Candu

/-- Claim C4: for `num_channels=4, burn_rate=1, bundles_per_step=1,
total_steps=3`, the run produces average-burnup series `[3/4, 5/4, 3/2]`,
refuel-count series `[1, 2, 3]` and discharged-burnup log `[1, 2, 3]`, and
the channel states after steps 1, 2, 3 show channel 0, 1, 2 respectively
holding the freshly refuelled (burnup-0) bundle. -/
theorem scenario1_exact_run :
    (CANDUSimulator.init 4 1 1 3).run.avg_burnup =
        [some (3/4), some (5/4), some (3/2)] ∧
    (CANDUSimulator.init 4 1 1 3).run.refuel_events = [1, 2, 3] ∧
    (CANDUSimulator.init 4 1 1 3).run.fm.discharged_burnups = [1, 2, 3] ∧
    ((CANDUSimulator.init 4 1 1 3).step).core.channels =
        [⟨⟨0⟩⟩, ⟨⟨1⟩⟩, ⟨⟨1⟩⟩, ⟨⟨1⟩⟩] ∧
    ((CANDUSimulator.init 4 1 1 3).step.step).core.channels =
        [⟨⟨1⟩⟩, ⟨⟨0⟩⟩, ⟨⟨2⟩⟩, ⟨⟨2⟩⟩] ∧
    ((CANDUSimulator.init 4 1 1 3).step.step.step).core.channels =
        [⟨⟨2⟩⟩, ⟨⟨1⟩⟩, ⟨⟨0⟩⟩, ⟨⟨3⟩⟩] := by
  have hrun : (CANDUSimulator.init 4 1 1 3).run =
      (CANDUSimulator.init 4 1 1 3).step.step.step := rfl
  rw [hrun]
  norm_num [CANDUSimulator.step, CANDUSimulator.init, Core.init,
    Core.burn_all, Core.average_burnup, npMean, FuellingMachine.refuel_core,
    FuellingMachine.init, FuelChannel.init, FuelBundle.init, FuelChannel.burn,
    keyLE, pySliceTo, selectedChannels, sortedIndexed, List.enum,
    List.enumFrom, Int.toNat_ofNat, List.insertionSort, List.orderedInsert,
    List.replicate, List.set]

/-- Claim C2, counterexample: with `num_channels = 1`, `burn_rate = 1`,
`bundles_per_step = 1` (so `bundles_per_step ≥ num_channels`) and one step,
the recorded average-burnup series is `[0]`, not the constant `burn_rate = 1`
claimed: the average is recorded after refuelling, when every channel has
just been reset to burnup `0`. -/
theorem full_refuel_avg_is_zero_not_rate :
    (CANDUSimulator.init 1 1 1 1).run.avg_burnup = [some 0] ∧
    (0 : ℚ) ≠ 1 := by
  have hrun : (CANDUSimulator.init 1 1 1 1).run =
      (CANDUSimulator.init 1 1 1 1).step := rfl
  rw [hrun]
  norm_num [CANDUSimulator.step, CANDUSimulator.init, Core.init,
    Core.burn_all, Core.average_burnup, npMean, FuellingMachine.refuel_core,
    FuellingMachine.init, FuelChannel.init, FuelBundle.init, FuelChannel.burn,
    keyLE, pySliceTo, selectedChannels, sortedIndexed, List.enum,
    List.enumFrom, Int.toNat_ofNat, List.insertionSort, List.orderedInsert,
    List.replicate, List.set]

/-- Claim C8, counterexample: with `bundles_per_step = 0` and
`burn_rate = 0` (a configuration the claim quantifies over), the
average-burnup series over two steps is `[0, 0]`: consecutive entries are
equal, so the series does not strictly increase by `burn_rate` each step. -/
theorem zero_rate_series_not_strictly_increasing :
    (CANDUSimulator.init 1 0 0 2).run.avg_burnup = [some 0, some 0] ∧
    ¬ ((0 : ℚ) < 0) := by
  have hrun : (CANDUSimulator.init 1 0 0 2).run =
      (CANDUSimulator.init 1 0 0 2).step.step := rfl
  rw [hrun]
  norm_num [CANDUSimulator.step, CANDUSimulator.init, Core.init,
    Core.burn_all, Core.average_burnup, npMean, FuellingMachine.refuel_core,
    FuellingMachine.init, FuelChannel.init, FuelBundle.init, FuelChannel.burn,
    keyLE, pySliceTo, selectedChannels, sortedIndexed, List.enum,
    List.enumFrom, Int.toNat_ofNat, List.insertionSort, List.orderedInsert,
    List.replicate, List.set]

end Candu

namespace Candu

/-! ### Helper lemmas: rank characterisation of the stable selection -/

theorem rankedBefore_iff_keyLE (q p : ℕ × FuelChannel) :
    rankedBefore q p ↔ (keyLE q p ∧ q ≠ p) := by
  obtain ⟨i, ⟨⟨a⟩⟩⟩ := q
  obtain ⟨j, ⟨⟨b⟩⟩⟩ := p
  simp only [rankedBefore, keyLE, ne_eq, Prod.mk.injEq, FuelChannel.mk.injEq,
    FuelBundle.mk.injEq, not_and]
  constructor
  · rintro (h | ⟨e, hij⟩)
    · exact ⟨Or.inl h, fun hij hab => absurd h (hab ▸ lt_irrefl _)⟩
    · exact ⟨Or.inr ⟨e, le_of_lt hij⟩, fun h _ => absurd h (ne_of_lt hij)⟩
  · rintro ⟨h | ⟨e, hij⟩, hne⟩
    · exact Or.inl h
    · refine Or.inr ⟨e, lt_of_le_of_ne hij ?_⟩
      intro hij'
      exact hne hij' e

theorem sorted_rank_eq (S : List (ℕ × FuelChannel))
    (hs : List.Sorted keyLE S) (hn : S.Nodup) (i : ℕ) (hi : i < S.length)
    (p : ℕ × FuelChannel) (hp : S.get ⟨i, hi⟩ = p) :
    (S.filter (fun q => decide (rankedBefore q p))).length = i := by
  conv_lhs => rw [← List.take_append_drop i S]
  rw [List.filter_append]
  have h1 : (S.take i).filter (fun q => decide (rankedBefore q p))
      = S.take i := by
    apply List.filter_eq_self.mpr
    intro q hq
    obtain ⟨j, hj, he⟩ := List.mem_take_iff_getElem.mp hq
    have hji : j < i := lt_of_lt_of_le hj (min_le_left _ _)
    have hjS : j < S.length := lt_of_lt_of_le hj (min_le_right _ _)
    rw [decide_eq_true_iff, rankedBefore_iff_keyLE, ← he, ← hp]
    refine ⟨List.pairwise_iff_getElem.mp hs j i hjS hi hji, ?_⟩
    intro e
    exact absurd (hn.getElem_inj_iff.mp (by simpa using e)) (ne_of_lt hji)
  have h2 : (S.drop i).filter (fun q => decide (rankedBefore q p)) = [] := by
    apply List.filter_eq_nil_iff.mpr
    intro q hq
    obtain ⟨j, hj, he⟩ := List.mem_iff_getElem.mp hq
    have hij : i + j < S.length := by
      have := List.length_drop i S ▸ hj
      omega
    have he' : S.get ⟨i + j, hij⟩ = q := by
      rw [← he, List.getElem_drop]
      rfl
    simp only [decide_eq_true_iff]
    rw [rankedBefore_iff_keyLE, ← he', ← hp]
    rintro ⟨hle, hne⟩
    rcases Nat.eq_zero_or_pos j with rfl | hjpos
    · exact hne (by simp)
    · have hlt : i < i + j := by omega
      have hge : keyLE (S.get ⟨i, hi⟩) (S.get ⟨i + j, hij⟩) :=
        List.pairwise_iff_getElem.mp hs i (i + j) hi hij hlt
      have heq : S.get ⟨i + j, hij⟩ = S.get ⟨i, hi⟩ := antisymm hle hge
      have : i + j = i := hn.getElem_inj_iff.mp (by simpa using heq)
      omega
  rw [h1, h2, List.length_append, List.length_nil, List.length_take]
  omega

theorem nodup_mem_take_iff (S : List (ℕ × FuelChannel)) (hn : S.Nodup)
    (i : ℕ) (hi : i < S.length) (m : ℕ) :
    S.get ⟨i, hi⟩ ∈ S.take m ↔ i < m := by
  constructor
  · intro h
    obtain ⟨j, hj, he⟩ := List.mem_take_iff_getElem.mp h
    have : j = i := hn.getElem_inj_iff.mp (by simpa using he)
    omega
  · intro h
    exact List.mem_take_iff_getElem.mpr ⟨i, lt_min h hi, by simp⟩

theorem selected_iff_rank (cs : List FuelChannel) (k : ℕ)
    (p : ℕ × FuelChannel) (hp : p ∈ cs.enum) :
    p ∈ selectedChannels cs (k : Int)
      ↔ rankIn cs.enum p < min k cs.length := by
  have hperm := sortedIndexed_perm cs
  have hpS : p ∈ sortedIndexed cs := hperm.mem_iff.mpr hp
  obtain ⟨i, hi, he⟩ := List.mem_iff_getElem.mp hpS
  have he' : (sortedIndexed cs).get ⟨i, hi⟩ = p := by simpa using he
  have hrank : rankIn cs.enum p = i := by
    rw [rankIn, ← (hperm.filter _).length_eq]
    exact sorted_rank_eq (sortedIndexed cs) (sortedIndexed_sorted cs)
      (sortedIndexed_nodup cs) i hi p he'
  rw [hrank, selectedChannels_natCast, ← he',
    nodup_mem_take_iff (sortedIndexed cs) (sortedIndexed_nodup cs) i hi k]
  have hi' : i < cs.length := sortedIndexed_length cs ▸ hi
  omega

end Candu

namespace Candu

/-- Claim C1: a `refuel_core` call with non-negative `bundles_per_step = k`
appends to the discharge log exactly the top `min(k, number of channels)`
burnup values (the first entries of the descending sort of all burnup values
— in particular the multiset of discharged values equals the multiset of
those top values), and the selected channels are exactly those whose rank
under burnup-descending order with ties broken by ascending original index is
below `min(k, number of channels)`. -/
theorem refuel_core_selects_top_burnups (fm : FuellingMachine)
    (cs : List FuelChannel) (k : ℕ) :
    (fm.refuel_core ⟨cs⟩ (k : Int)).1.discharged_burnups
      = fm.discharged_burnups ++ specTopBurnups cs (min k cs.length) ∧
    (((selectedChannels cs (k : Int)).map
        (fun p => p.2.bundle.burnup) : Multiset ℚ)
      = (specTopBurnups cs (min k cs.length) : Multiset ℚ)) ∧
    ∀ p ∈ cs.enum,
      (p ∈ selectedChannels cs (k : Int)
        ↔ rankIn cs.enum p < min k cs.length) := by
  refine ⟨?_, ?_, fun p hp => selected_iff_rank cs k p hp⟩
  · rw [refuel_core_fst_discharged]
    show fm.discharged_burnups
        ++ (selectedChannels cs (k : Int)).map (fun p => p.2.bundle.burnup)
      = _
    rw [selectedChannels_map_val]
  · rw [selectedChannels_map_val]

/-- Witness for `refuel_core_selects_top_burnups` on a concrete two-channel
core with burnups `[1, 2]` and one bundle per step: the discharged value is
the top burnup `2`, and the selected pair is the one of rank `0`. -/
theorem refuel_core_selects_top_burnups_witness :
    ((FuellingMachine.refuel_core ⟨0, []⟩ ⟨[⟨⟨1⟩⟩, ⟨⟨2⟩⟩]⟩
        ((1 : ℕ) : Int)).1.discharged_burnups
      = [] ++ specTopBurnups [⟨⟨1⟩⟩, ⟨⟨2⟩⟩] (min 1 2)) ∧
    ((1, ⟨⟨2⟩⟩) ∈ selectedChannels [⟨⟨1⟩⟩, ⟨⟨2⟩⟩] ((1 : ℕ) : Int)
      ↔ rankIn [⟨⟨1⟩⟩, ⟨⟨2⟩⟩].enum (1, ⟨⟨2⟩⟩) < min 1 2) := by
  have h := refuel_core_selects_top_burnups ⟨0, []⟩ [⟨⟨1⟩⟩, ⟨⟨2⟩⟩] 1
  refine ⟨h.1, h.2.2 (1, ⟨⟨2⟩⟩) ?_⟩
  simp [List.enum, List.enumFrom]

/-- Claim C10: a `refuel_core` call with non-negative `bundles_per_step`
keeps the channel sequence's length (and hence the index of every channel):
every non-selected index keeps exactly its previous channel value, and every
selected index holds a fresh channel afterwards. -/
theorem refuel_core_frame (fm : FuellingMachine) (cs : List FuelChannel)
    (k : ℕ) :
    (fm.refuel_core ⟨cs⟩ (k : Int)).2.channels.length = cs.length ∧
    ∀ j : ℕ, j < cs.length →
      (j ∉ (selectedChannels cs (k : Int)).map Prod.fst →
        (fm.refuel_core ⟨cs⟩ (k : Int)).2.channels[j]? = cs[j]?) ∧
      (j ∈ (selectedChannels cs (k : Int)).map Prod.fst →
        (fm.refuel_core ⟨cs⟩ (k : Int)).2.channels[j]?
          = some FuelChannel.init) := by
  refine ⟨refuel_core_snd_length fm ⟨cs⟩ (k : Int), fun j hj => ⟨?_, ?_⟩⟩
  · intro hnot
    rw [refuel_core_snd_channels]
    exact foldl_set_getElem?_not_mem _ _ j
      (fun p hp e => hnot (e ▸ List.mem_map_of_mem Prod.fst hp))
  · intro hmem
    rw [refuel_core_snd_channels]
    obtain ⟨p, hp, e⟩ := List.mem_map.mp hmem
    exact foldl_set_getElem?_mem _ _ j hj ⟨p, hp, e⟩

/-- Witness for `refuel_core_frame` on the two-channel core with burnups
`[1, 2]` and one bundle per step: channel `0` is untouched. -/
theorem refuel_core_frame_witness :
    (FuellingMachine.refuel_core ⟨0, []⟩ ⟨[⟨⟨1⟩⟩, ⟨⟨2⟩⟩]⟩
        ((1 : ℕ) : Int)).2.channels.length = 2 ∧
    (0 ∉ (selectedChannels [⟨⟨1⟩⟩, ⟨⟨2⟩⟩] ((1 : ℕ) : Int)).map Prod.fst →
      (FuellingMachine.refuel_core ⟨0, []⟩ ⟨[⟨⟨1⟩⟩, ⟨⟨2⟩⟩]⟩
          ((1 : ℕ) : Int)).2.channels[0]? = [⟨⟨1⟩⟩, ⟨⟨2⟩⟩][0]?) := by
  have h := refuel_core_frame ⟨0, []⟩ [⟨⟨1⟩⟩, ⟨⟨2⟩⟩] 1
  exact ⟨h.1, (h.2 0 (by norm_num)).1⟩

end Candu

namespace Candu

/-! ### Helper lemmas: the simulation step and its iteration -/

theorem burn_all_length (c : Core) (r : ℚ) :
    (c.burn_all r).channels.length = c.channels.length := by
  simp [Core.burn_all]

theorem step_core_eq (s : CANDUSimulator) :
    s.step.core
      = (s.fm.refuel_core (s.core.burn_all s.burn_rate)
          s.bundles_per_step).2 :=
  rfl

theorem step_fm_eq (s : CANDUSimulator) :
    s.step.fm
      = (s.fm.refuel_core (s.core.burn_all s.burn_rate)
          s.bundles_per_step).1 :=
  rfl

theorem step_avg_eq (s : CANDUSimulator) :
    s.step.avg_burnup
      = s.avg_burnup
        ++ [(s.fm.refuel_core (s.core.burn_all s.burn_rate)
              s.bundles_per_step).2.average_burnup] :=
  rfl

theorem step_events_eq (s : CANDUSimulator) :
    s.step.refuel_events
      = s.refuel_events
        ++ [(s.fm.refuel_core (s.core.burn_all s.burn_rate)
              s.bundles_per_step).1.total_refuel_count] :=
  rfl

theorem step_burn_rate (s : CANDUSimulator) :
    s.step.burn_rate = s.burn_rate :=
  rfl

theorem step_bundles_per_step (s : CANDUSimulator) :
    s.step.bundles_per_step = s.bundles_per_step :=
  rfl

theorem step_core_length (s : CANDUSimulator) :
    s.step.core.channels.length = s.core.channels.length := by
  rw [step_core_eq, refuel_core_snd_length, burn_all_length]

theorem iterate_burn_rate (k : ℕ) (s : CANDUSimulator) :
    (CANDUSimulator.step^[k] s).burn_rate = s.burn_rate := by
  induction k with
  | zero => rfl
  | succ k ih => rw [Function.iterate_succ_apply', step_burn_rate, ih]

theorem iterate_bundles_per_step (k : ℕ) (s : CANDUSimulator) :
    (CANDUSimulator.step^[k] s).bundles_per_step = s.bundles_per_step := by
  induction k with
  | zero => rfl
  | succ k ih => rw [Function.iterate_succ_apply', step_bundles_per_step, ih]

theorem iterate_core_length (k : ℕ) (s : CANDUSimulator) :
    (CANDUSimulator.step^[k] s).core.channels.length
      = s.core.channels.length := by
  induction k with
  | zero => rfl
  | succ k ih => rw [Function.iterate_succ_apply', step_core_length, ih]

theorem iterate_avg_length (k : ℕ) (s : CANDUSimulator) :
    (CANDUSimulator.step^[k] s).avg_burnup.length
      = s.avg_burnup.length + k := by
  induction k with
  | zero => rfl
  | succ k ih =>
    rw [Function.iterate_succ_apply', step_avg_eq, List.length_append, ih]
    simp [Nat.add_assoc]

theorem iterate_events_length (k : ℕ) (s : CANDUSimulator) :
    (CANDUSimulator.step^[k] s).refuel_events.length
      = s.refuel_events.length + k := by
  induction k with
  | zero => rfl
  | succ k ih =>
    rw [Function.iterate_succ_apply', step_events_eq, List.length_append, ih]
    simp [Nat.add_assoc]

theorem init_core_channels (n : ℕ) (r : ℚ) (b t : Int) :
    (CANDUSimulator.init (n : Int) r b t).core.channels
      = List.replicate n FuelChannel.init :=
  rfl

/-- Claim C5: with a constant non-negative `bundles_per_step = b` and
`num_channels = n ≥ 1`, after `k` completed steps the fuelling machine's
`total_refuel_count` equals `k * min(b, n)`. -/
theorem refuel_count_conservation (n b t k : ℕ) (hn : 1 ≤ n) (r : ℚ) :
    (CANDUSimulator.step^[k]
        (CANDUSimulator.init (n : Int) r (b : Int)
          (t : Int))).fm.total_refuel_count
      = k * min b n := by
  induction k with
  | zero => simp [CANDUSimulator.init, FuellingMachine.init]
  | succ k ih =>
    rw [Function.iterate_succ_apply', step_fm_eq, refuel_core_fst_count,
      iterate_bundles_per_step]
    have hb : (CANDUSimulator.init (n : Int) r (b : Int)
        (t : Int)).bundles_per_step = ((b : ℕ) : Int) := rfl
    rw [hb, selectedChannels_length, burn_all_length, iterate_core_length,
      init_core_channels, List.length_replicate, ih, Nat.succ_mul]

/-- Witness for `refuel_count_conservation`: two channels, one bundle per
step, three steps give a total count of `3 · min(1, 2) = 3`. -/
theorem refuel_count_conservation_witness :
    1 ≤ 2 ∧
    (CANDUSimulator.step^[3]
        (CANDUSimulator.init ((2 : ℕ) : Int) 1 ((1 : ℕ) : Int)
          ((5 : ℕ) : Int))).fm.total_refuel_count
      = 3 * min 1 2 :=
  ⟨by norm_num, refuel_count_conservation 2 1 5 3 (by norm_num) 1⟩

end Candu

namespace Candu

/-! ### Helper lemmas: full refuelling and the no-op refuelling -/

theorem average_burnup_replicate (n : ℕ) (hn : 1 ≤ n) (v : ℚ) :
    Core.average_burnup ⟨List.replicate n ⟨⟨v⟩⟩⟩ = some (v : ℚ) := by
  rw [Core.average_burnup, List.map_replicate, npMean]
  have hne : ¬ (List.replicate n (v : ℚ)).isEmpty = true := by
    simp [List.isEmpty_iff]
    omega
  rw [if_neg hne, List.sum_replicate, List.length_replicate]
  have hn0 : ((n : ℚ)) ≠ 0 := Nat.cast_ne_zero.mpr (by omega)
  rw [nsmul_eq_mul, mul_div_cancel_left₀ _ hn0]

theorem burn_all_replicate (n : ℕ) (v r : ℚ) :
    Core.burn_all ⟨List.replicate n ⟨⟨v⟩⟩⟩ r
      = ⟨List.replicate n ⟨⟨v + r⟩⟩⟩ := by
  simp [Core.burn_all, List.map_replicate, FuelChannel.burn]

theorem mem_enum_self (cs : List FuelChannel) (j : ℕ) (hj : j < cs.length) :
    (j, cs.get ⟨j, hj⟩) ∈ cs.enum := by
  refine List.mem_iff_getElem.mpr ⟨j, by simpa [List.enum_length] using hj, ?_⟩
  rw [List.getElem_enum]
  rfl

theorem refuel_core_all_channels (fm : FuellingMachine)
    (cs : List FuelChannel) (b : ℕ) (hb : cs.length ≤ b) :
    (fm.refuel_core ⟨cs⟩ (b : Int)).2.channels
      = List.replicate cs.length FuelChannel.init := by
  rw [refuel_core_snd_channels]
  apply List.ext_getElem?_iff.mpr
  intro j
  by_cases hj : j < cs.length
  · have hsel : ∃ p ∈ selectedChannels cs ((b : ℕ) : Int), p.1 = j := by
      refine ⟨(j, cs.get ⟨j, hj⟩), ?_, rfl⟩
      rw [selectedChannels_natCast,
        List.take_of_length_le (by rw [sortedIndexed_length]; exact hb)]
      exact (sortedIndexed_perm cs).mem_iff.mpr (mem_enum_self cs j hj)
    rw [foldl_set_getElem?_mem _ _ j hj hsel, List.getElem?_replicate,
      if_pos hj]
  · have hj' : cs.length ≤ j := Nat.le_of_not_lt hj
    trans (none : Option FuelChannel)
    · apply List.getElem?_eq_none
      rw [foldl_set_length]
      exact hj'
    · symm
      apply List.getElem?_eq_none
      rw [List.length_replicate]
      exact hj'

theorem refuel_core_all_count (fm : FuellingMachine)
    (cs : List FuelChannel) (b : ℕ) (hb : cs.length ≤ b) :
    (fm.refuel_core ⟨cs⟩ (b : Int)).1.total_refuel_count
      = fm.total_refuel_count + cs.length := by
  rw [refuel_core_fst_count, selectedChannels_length, Nat.min_eq_right hb]

/-- The per-step state of a full-refuelling run (`bundles_per_step ≥
num_channels`): after `k` steps every channel is fresh, the counter is
`k * n`, every recorded average is `0`, and each recorded count is a whole
multiple of `n`. -/
theorem full_refuel_state (n b t : ℕ) (hn : 1 ≤ n) (hb : n ≤ b) (r : ℚ)
    (k : ℕ) :
    (CANDUSimulator.step^[k]
        (CANDUSimulator.init (n : Int) r (b : Int)
          (t : Int))).core.channels
        = List.replicate n FuelChannel.init ∧
    (CANDUSimulator.step^[k]
        (CANDUSimulator.init (n : Int) r (b : Int)
          (t : Int))).fm.total_refuel_count = k * n ∧
    (CANDUSimulator.step^[k]
        (CANDUSimulator.init (n : Int) r (b : Int)
          (t : Int))).avg_burnup = List.replicate k (some 0) ∧
    (CANDUSimulator.step^[k]
        (CANDUSimulator.init (n : Int) r (b : Int)
          (t : Int))).refuel_events
        = (List.range k).map (fun i => (i + 1) * n) := by
  induction k with
  | zero => exact ⟨rfl, by simp [CANDUSimulator.init, FuellingMachine.init],
      rfl, rfl⟩
  | succ k ih =>
    obtain ⟨ihc, ihn, iha, ihe⟩ := ih
    have hrate := iterate_burn_rate k
      (CANDUSimulator.init (n : Int) r (b : Int) (t : Int))
    have hbps := iterate_bundles_per_step k
      (CANDUSimulator.init (n : Int) r (b : Int) (t : Int))
    have hrate' : (CANDUSimulator.step^[k]
        (CANDUSimulator.init (n : Int) r (b : Int)
          (t : Int))).burn_rate = r := hrate
    have hbps' : (CANDUSimulator.step^[k]
        (CANDUSimulator.init (n : Int) r (b : Int)
          (t : Int))).bundles_per_step = ((b : ℕ) : Int) := hbps
    have hcore : (CANDUSimulator.step^[k]
        (CANDUSimulator.init (n : Int) r (b : Int) (t : Int))).core
        = ⟨List.replicate n FuelChannel.init⟩ := by
      rw [← ihc]
    have hburn : (CANDUSimulator.step^[k]
          (CANDUSimulator.init (n : Int) r (b : Int) (t : Int))).core.burn_all
          (CANDUSimulator.step^[k]
            (CANDUSimulator.init (n : Int) r (b : Int)
              (t : Int))).burn_rate
        = ⟨List.replicate n ⟨⟨0 + r⟩⟩⟩ := by
      rw [hcore, hrate']
      exact burn_all_replicate n 0 r
    have hball : n ≤ b := hb
    constructor
    · rw [Function.iterate_succ_apply', step_core_eq, hbps', hburn]
      rw [refuel_core_all_channels _ _ b
        (by rw [List.length_replicate]; exact hball)]
      rw [List.length_replicate]
    refine ⟨?_, ?_, ?_⟩
    · rw [Function.iterate_succ_apply', step_fm_eq, hbps', hburn]
      rw [refuel_core_all_count _ _ b
        (by rw [List.length_replicate]; exact hball)]
      rw [ihn, List.length_replicate, Nat.succ_mul]
    · rw [Function.iterate_succ_apply', step_avg_eq, hbps', hburn, iha]
      have : (FuellingMachine.refuel_core
          (CANDUSimulator.step^[k]
            (CANDUSimulator.init (n : Int) r (b : Int) (t : Int))).fm
          ⟨List.replicate n ⟨⟨0 + r⟩⟩⟩ ((b : ℕ) : Int)).2.average_burnup
          = some 0 := by
        have h2 : (FuellingMachine.refuel_core
            (CANDUSimulator.step^[k]
              (CANDUSimulator.init (n : Int) r (b : Int) (t : Int))).fm
            ⟨List.replicate n ⟨⟨0 + r⟩⟩⟩ ((b : ℕ) : Int)).2
            = ⟨List.replicate n FuelChannel.init⟩ := by
          have := refuel_core_all_channels
            (CANDUSimulator.step^[k]
              (CANDUSimulator.init (n : Int) r (b : Int) (t : Int))).fm
            (List.replicate n ⟨⟨0 + r⟩⟩) b
            (by rw [List.length_replicate]; exact hball)
          rw [List.length_replicate] at this
          exact congrArg Core.mk this
        rw [h2]
        exact average_burnup_replicate n hn 0
      rw [this, ← List.replicate_succ']
    · rw [Function.iterate_succ_apply', step_events_eq, hbps', hburn, ihe]
      rw [refuel_core_all_count _ _ b
        (by rw [List.length_replicate]; exact hball)]
      rw [ihn, List.length_replicate, List.range_succ, List.map_append,
        List.map_singleton, Nat.succ_mul]

end Candu

namespace Candu

/-- Claim C2, amended: with `bundles_per_step ≥ num_channels ≥ 1` every
channel is refuelled every step (the refuel-count series grows by exactly
`num_channels` per step and every channel is fresh after each step), but the
recorded average-burnup series is constant at `0`, not at `burn_rate`: the
average is recorded after refuelling, when every bundle has just been
replaced. -/
theorem full_refuel_every_step (n b t : ℕ) (hn : 1 ≤ n) (hb : n ≤ b)
    (r : ℚ) (hr : 0 ≤ r) :
    (CANDUSimulator.init (n : Int) r (b : Int) (t : Int)).run.avg_burnup
      = List.replicate t (some 0) ∧
    (CANDUSimulator.init (n : Int) r (b : Int) (t : Int)).run.refuel_events
      = (List.range t).map (fun i => (i + 1) * n) ∧
    ∀ ch ∈ (CANDUSimulator.init (n : Int) r (b : Int)
        (t : Int)).run.core.channels, ch.bundle.burnup = 0 := by
  have hrun : (CANDUSimulator.init (n : Int) r (b : Int) (t : Int)).run
      = CANDUSimulator.step^[t]
          (CANDUSimulator.init (n : Int) r (b : Int) (t : Int)) := by
    rw [CANDUSimulator.run]
    congr 1
  obtain ⟨hc, _, ha, he⟩ := full_refuel_state n b t hn hb r t
  refine ⟨hrun ▸ ha, hrun ▸ he, ?_⟩
  rw [hrun, hc]
  intro ch hch
  rw [List.eq_of_mem_replicate hch]
  rfl

/-- Witness for `full_refuel_every_step` at `n = 1, b = 1, t = 1, r = 1`. -/
theorem full_refuel_every_step_witness :
    1 ≤ 1 ∧
    (CANDUSimulator.init ((1 : ℕ) : Int) 1 ((1 : ℕ) : Int)
        ((1 : ℕ) : Int)).run.avg_burnup = List.replicate 1 (some 0) :=
  ⟨le_refl 1,
   (full_refuel_every_step 1 1 1 (le_refl 1) (le_refl 1) 1
      (by norm_num)).1⟩

/-! ### Helper lemmas: `bundles_per_step = 0` is a no-op -/

theorem refuel_core_zero (fm : FuellingMachine) (core : Core) :
    fm.refuel_core core 0 = (fm, core) := by
  have hsel : selectedChannels core.channels 0 = [] := rfl
  rw [FuellingMachine.refuel_core]
  simp [hsel]

theorem zero_bundles_state (n t : ℕ) (hn : 1 ≤ n) (r : ℚ) (k : ℕ) :
    (CANDUSimulator.step^[k]
        (CANDUSimulator.init (n : Int) r 0 (t : Int))).core.channels
        = List.replicate n ⟨⟨(k : ℚ) * r⟩⟩ ∧
    (CANDUSimulator.step^[k]
        (CANDUSimulator.init (n : Int) r 0 (t : Int))).fm
        = FuellingMachine.init ∧
    (CANDUSimulator.step^[k]
        (CANDUSimulator.init (n : Int) r 0 (t : Int))).avg_burnup
        = (List.range k).map (fun i : ℕ => some (((i : ℚ) + 1) * r)) ∧
    (CANDUSimulator.step^[k]
        (CANDUSimulator.init (n : Int) r 0 (t : Int))).refuel_events
        = List.replicate k 0 := by
  induction k with
  | zero =>
    refine ⟨?_, rfl, rfl, rfl⟩
    show (CANDUSimulator.init (n : Int) r 0 (t : Int)).core.channels = _
    rw [init_core_channels]
    have h0 : ((0 : ℕ) : ℚ) * r = 0 := by norm_num
    rw [h0]
    rfl
  | succ k ih =>
    obtain ⟨ihc, ihf, iha, ihe⟩ := ih
    have hrate' : (CANDUSimulator.step^[k]
        (CANDUSimulator.init (n : Int) r 0 (t : Int))).burn_rate = r :=
      iterate_burn_rate k _
    have hbps' : (CANDUSimulator.step^[k]
        (CANDUSimulator.init (n : Int) r 0 (t : Int))).bundles_per_step
        = 0 := iterate_bundles_per_step k _
    have hcore : (CANDUSimulator.step^[k]
        (CANDUSimulator.init (n : Int) r 0 (t : Int))).core
        = ⟨List.replicate n ⟨⟨(k : ℚ) * r⟩⟩⟩ := by
      rw [← ihc]
    have hburn : (CANDUSimulator.step^[k]
          (CANDUSimulator.init (n : Int) r 0 (t : Int))).core.burn_all
          (CANDUSimulator.step^[k]
            (CANDUSimulator.init (n : Int) r 0 (t : Int))).burn_rate
        = ⟨List.replicate n ⟨⟨((k : ℚ) + 1) * r⟩⟩⟩ := by
      rw [hcore, hrate', burn_all_replicate]
      congr 2
      ring
    have href : (CANDUSimulator.step^[k]
          (CANDUSimulator.init (n : Int) r 0 (t : Int))).fm.refuel_core
          ⟨List.replicate n ⟨⟨((k : ℚ) + 1) * r⟩⟩⟩ 0
        = ((CANDUSimulator.step^[k]
            (CANDUSimulator.init (n : Int) r 0 (t : Int))).fm,
           ⟨List.replicate n ⟨⟨((k : ℚ) + 1) * r⟩⟩⟩) :=
      refuel_core_zero _ _
    refine ⟨?_, ?_, ?_, ?_⟩
    · rw [Function.iterate_succ_apply', step_core_eq, hbps', hburn, href]
      push_cast
      rfl
    · rw [Function.iterate_succ_apply', step_fm_eq, hbps', hburn, href, ihf]
    · rw [Function.iterate_succ_apply', step_avg_eq, hbps', hburn, href, iha]
      rw [average_burnup_replicate n hn (((k : ℚ) + 1) * r)]
      rw [List.range_succ, List.map_append, List.map_singleton]
    · rw [Function.iterate_succ_apply', step_events_eq, hbps', hburn, href,
        ihe, ihf]
      show List.replicate k 0 ++ [0] = List.replicate (k + 1) 0
      rw [← List.replicate_succ']

/-- Claim C8, amended: with `bundles_per_step = 0` every `refuel_core` call
is a no-op (the machine and the core are returned unchanged), the
refuel-count series is all zeros, and the average-burnup series is exactly
`[(i+1)·burn_rate for i < total_steps]` — it increases by exactly
`burn_rate` each step, strictly increasing only when `burn_rate > 0`. -/
theorem zero_bundles_noop (n t : ℕ) (hn : 1 ≤ n) (r : ℚ) (hr : 0 ≤ r) :
    (∀ fm core, FuellingMachine.refuel_core fm core 0 = (fm, core)) ∧
    (CANDUSimulator.init (n : Int) r 0 (t : Int)).run.refuel_events
      = List.replicate t 0 ∧
    (CANDUSimulator.init (n : Int) r 0 (t : Int)).run.avg_burnup
      = (List.range t).map (fun i : ℕ => some (((i : ℚ) + 1) * r)) := by
  have hrun : (CANDUSimulator.init (n : Int) r 0 (t : Int)).run
      = CANDUSimulator.step^[t]
          (CANDUSimulator.init (n : Int) r 0 (t : Int)) := by
    rw [CANDUSimulator.run]
    congr 1
  obtain ⟨_, _, ha, he⟩ := zero_bundles_state n t hn r t
  exact ⟨fun fm core => refuel_core_zero fm core, hrun ▸ he, hrun ▸ ha⟩

/-- Witness for `zero_bundles_noop` at `n = 1, t = 2, r = 1`. -/
theorem zero_bundles_noop_witness :
    1 ≤ 1 ∧
    (CANDUSimulator.init ((1 : ℕ) : Int) 1 0 ((2 : ℕ) : Int)).run.refuel_events
      = List.replicate 2 0 :=
  ⟨le_refl 1, (zero_bundles_noop 1 2 (le_refl 1) 1 (by norm_num)).2.1⟩

end Candu

namespace Candu

/-! ### Helper lemmas: the run invariant -/

theorem average_burnup_nonneg (c : Core) (hne : c.channels ≠ [])
    (hpos : ∀ ch ∈ c.channels, 0 ≤ ch.bundle.burnup) :
    ∃ q, c.average_burnup = some q ∧ 0 ≤ q := by
  rw [Core.average_burnup, npMean]
  rw [if_neg (by simpa [List.isEmpty_iff] using hne)]
  refine ⟨_, rfl, ?_⟩
  apply div_nonneg
  · apply List.sum_nonneg
    intro a ha
    obtain ⟨ch, hch, rfl⟩ := List.mem_map.mp ha
    exact hpos ch hch
  · exact Nat.cast_nonneg _

theorem step_preserves_runInv (n : ℕ) (hn : 1 ≤ n) (s : CANDUSimulator)
    (hr : 0 ≤ s.burn_rate) (h : RunInv n s) : RunInv n s.step := by
  obtain ⟨hlen, hpos, hdis, havg, hchain, hlast⟩ := h
  have hlen1 : (s.core.burn_all s.burn_rate).channels.length = n := by
    rw [burn_all_length, hlen]
  have hpos1 : ∀ ch ∈ (s.core.burn_all s.burn_rate).channels,
      0 ≤ ch.bundle.burnup := by
    intro ch hch
    obtain ⟨ch₀, hch₀, rfl⟩ :=
      List.mem_map.mp (by simpa [Core.burn_all] using hch)
    show 0 ≤ ch₀.bundle.burnup + s.burn_rate
    exact add_nonneg (hpos ch₀ hch₀) hr
  have hlen2 : (s.fm.refuel_core (s.core.burn_all s.burn_rate)
      s.bundles_per_step).2.channels.length = n := by
    rw [refuel_core_snd_length, hlen1]
  have hpos2 : ∀ ch ∈ (s.fm.refuel_core (s.core.burn_all s.burn_rate)
      s.bundles_per_step).2.channels, 0 ≤ ch.bundle.burnup := by
    intro ch hch
    rw [refuel_core_snd_channels] at hch
    rcases foldl_set_mem _ _ ch hch with h' | h'
    · exact hpos1 ch h'
    · rw [h']
      norm_num [FuelChannel.init, FuelBundle.init]
  refine ⟨?_, ?_, ?_, ?_, ?_, ?_⟩
  · rw [step_core_length, hlen]
  · intro ch hch
    rw [step_core_eq] at hch
    exact hpos2 ch hch
  · rw [step_fm_eq, refuel_core_fst_discharged, refuel_core_fst_count,
      List.length_append, List.length_map, hdis]
  · intro x hx
    rw [step_avg_eq] at hx
    rcases List.mem_append.mp hx with hx' | hx'
    · exact havg x hx'
    · have hxe : x = (s.fm.refuel_core (s.core.burn_all s.burn_rate)
          s.bundles_per_step).2.average_burnup := by
        simpa using hx'
      obtain ⟨q, hq, hq0⟩ := average_burnup_nonneg _
        (List.ne_nil_of_length_pos (by rw [hlen2]; omega)) hpos2
      exact ⟨q, hxe ▸ hq, hq0⟩
  · rw [step_events_eq]
    apply List.chain'_append.mpr
    refine ⟨hchain, List.chain'_singleton _, ?_⟩
    intro x hx y hy
    have hy' : (s.fm.refuel_core (s.core.burn_all s.burn_rate)
        s.bundles_per_step).1.total_refuel_count = y := by
      simpa using hy
    rw [← hy', refuel_core_fst_count]
    exact le_trans (hlast x hx) (Nat.le_add_right _ _)
  · intro c hc
    rw [step_events_eq, List.getLast?_concat] at hc
    have hc' : (s.fm.refuel_core (s.core.burn_all s.burn_rate)
        s.bundles_per_step).1.total_refuel_count = c := by
      simpa using hc
    rw [← hc', step_fm_eq]

theorem runInv_iterate (n b t : ℕ) (hn : 1 ≤ n) (r : ℚ) (hr : 0 ≤ r)
    (k : ℕ) :
    RunInv n (CANDUSimulator.step^[k]
      (CANDUSimulator.init (n : Int) r (b : Int) (t : Int))) := by
  induction k with
  | zero =>
    refine ⟨?_, ?_, rfl, ?_, List.chain'_nil, ?_⟩
    · show (CANDUSimulator.init (n : Int) r (b : Int)
          (t : Int)).core.channels.length = n
      rw [init_core_channels, List.length_replicate]
    · intro ch hch
      have : ch = FuelChannel.init := List.eq_of_mem_replicate
        (by simpa [init_core_channels] using hch)
      rw [this]
      norm_num [FuelChannel.init, FuelBundle.init]
    · intro x hx
      exact absurd hx (List.not_mem_nil x)
    · intro c hc
      simp [CANDUSimulator.init] at hc
  | succ k ih =>
    rw [Function.iterate_succ_apply']
    apply step_preserves_runInv n hn _ ?_ ih
    rw [iterate_burn_rate]
    exact hr

/-- Claim C9: for every valid configuration (`num_channels ≥ 1`,
`burn_rate ≥ 0`, `bundles_per_step ≥ 0`, `total_steps ≥ 0`), after `run()`
both series have length `total_steps`, every recorded average is a
non-negative value, the refuel-count series is non-decreasing with a
non-negative first entry, and the discharge log's length equals the final
`total_refuel_count`. -/
theorem run_output_contract (n b t : ℕ) (hn : 1 ≤ n) (r : ℚ)
    (hr : 0 ≤ r) :
    (CANDUSimulator.init (n : Int) r (b : Int)
      (t : Int)).run.avg_burnup.length = t ∧
    (CANDUSimulator.init (n : Int) r (b : Int)
      (t : Int)).run.refuel_events.length = t ∧
    (∀ x ∈ (CANDUSimulator.init (n : Int) r (b : Int)
      (t : Int)).run.avg_burnup, ∃ q, x = some q ∧ 0 ≤ q) ∧
    List.Chain' (fun a b => a ≤ b)
      (CANDUSimulator.init (n : Int) r (b : Int)
        (t : Int)).run.refuel_events ∧
    (∀ c ∈ (CANDUSimulator.init (n : Int) r (b : Int)
      (t : Int)).run.refuel_events.head?, 0 ≤ c) ∧
    (CANDUSimulator.init (n : Int) r (b : Int)
      (t : Int)).run.fm.discharged_burnups.length
      = (CANDUSimulator.init (n : Int) r (b : Int)
          (t : Int)).run.fm.total_refuel_count := by
  have hrun : (CANDUSimulator.init (n : Int) r (b : Int) (t : Int)).run
      = CANDUSimulator.step^[t]
          (CANDUSimulator.init (n : Int) r (b : Int) (t : Int)) := by
    rw [CANDUSimulator.run]
    congr 1
  obtain ⟨_, _, hd, ha, hch, _⟩ := runInv_iterate n b t hn r hr t
  refine ⟨?_, ?_, hrun ▸ ha, hrun ▸ hch, ?_, hrun ▸ hd⟩
  · rw [hrun, iterate_avg_length]
    simp [CANDUSimulator.init]
  · rw [hrun, iterate_events_length]
    simp [CANDUSimulator.init]
  · intro c _
    exact Nat.zero_le c

/-- Witness for `run_output_contract` at `n = 1, b = 1, t = 2, r = 1`. -/
theorem run_output_contract_witness :
    1 ≤ 1 ∧ (0 : ℚ) ≤ 1 ∧
    (CANDUSimulator.init ((1 : ℕ) : Int) 1 ((1 : ℕ) : Int)
      ((2 : ℕ) : Int)).run.avg_burnup.length = 2 :=
  ⟨le_refl 1, by norm_num,
   (run_output_contract 1 1 2 (le_refl 1) 1 (by norm_num)).1⟩

end Candu
